import Mathlib

/-!
DES-CBC cipher context (`lib/libmbedtls/core/des_cbc.c`) and the
signature-status helper (`core/lib/libtomcrypt/acipher_helpers.h`).

A shallow embedding of the two source files.  Storage reached through
`struct crypto_cipher_ctx *` pointers is an explicit heap that every
operation receives and returns.  A failed `assert` (or a dereference of a
pointer that does not designate live storage) is the result `none`.
The mbedTLS block primitive and key expansion are the fields of a
`DesBackend` value; the CBC driver of the library is written out over it.
-/

/-! ## Result codes and constants taken from headers -/

/-- A `TEE_Result` is a 32-bit unsigned code. -/
abbrev TEE_Result := Nat

/-- Modelled from the spec: the result-code taxonomy is consumed from
`tee_api_defines.h`, which is not among the sources; Success. -/
def TEE_SUCCESS : TEE_Result := 0x00000000

/-- Modelled from the spec: `tee_api_defines.h` is not among the sources;
the generic error code. -/
def TEE_ERROR_GENERIC : TEE_Result := 0xFFFF0000

/-- Modelled from the spec: `tee_api_defines.h` is not among the sources;
BadParameters. -/
def TEE_ERROR_BAD_PARAMETERS : TEE_Result := 0xFFFF0006

/-- Modelled from the spec: `tee_api_defines.h` is not among the sources;
BadState. -/
def TEE_ERROR_BAD_STATE : TEE_Result := 0xFFFF0007

/-- Modelled from the spec: `tee_api_defines.h` is not among the sources;
OutOfMemory. -/
def TEE_ERROR_OUT_OF_MEMORY : TEE_Result := 0xFFFF000C

/-- Modelled from the spec: `tee_api_defines.h` is not among the sources;
the code reported for a signature that does not verify. -/
def TEE_ERROR_SIGNATURE_INVALID : TEE_Result := 0xFFFF3072

/-- A `TEE_OperationMode` value. -/
abbrev TEE_OperationMode := Nat

/-- Modelled from the spec: the direction selector of `init`, from
`tee_api_defines.h` (not among the sources); encrypt. -/
def TEE_MODE_ENCRYPT : TEE_OperationMode := 0

/-- Modelled from the spec: the direction selector of `init`, from
`tee_api_defines.h` (not among the sources); decrypt. -/
def TEE_MODE_DECRYPT : TEE_OperationMode := 1

/-- Modelled from the spec: the backend direction flag of `mbedtls/des.h`
(not among the sources); encrypt. -/
def MBEDTLS_DES_ENCRYPT : Int := 1

/-- Modelled from the spec: the backend direction flag of `mbedtls/des.h`
(not among the sources); decrypt. -/
def MBEDTLS_DES_DECRYPT : Int := 0

/-- Modelled from the spec: the fixed key size of the algorithm, 8 bytes
(`mbedtls/des.h` is not among the sources). -/
def MBEDTLS_DES_KEY_SIZE : Nat := 8

/-- Modelled from the spec: the block size, 8 bytes (`utee_defines.h` is not
among the sources). -/
def TEE_DES_BLOCK_SIZE : Nat := 8

/-- Modelled from the spec: the backend's code for an input length that is
not a multiple of the block size (`mbedtls/des.h` is not among the
sources). -/
def MBEDTLS_ERR_DES_INVALID_INPUT_LENGTH : Int := -0x0032

/-- Modelled from the spec: libtomcrypt's success code (`tomcrypt_private.h`
is not among the sources). -/
def CRYPT_OK : Int := 0

/-- Modelled from the spec: libtomcrypt's invalid-packet code
(`tomcrypt_private.h` is not among the sources). -/
def CRYPT_INVALID_PACKET : Int := 7

/-! ## Bytes and blocks -/

/-- An `unsigned char`; the exclusive-or of two of them is reduced mod 256. -/
abbrev Byte := Fin 256

/-- An `unsigned char [8]` buffer. -/
abbrev Block := { l : List Byte // l.length = 8 }

/-- The all-zero block. -/
def zeroBlock : Block := ⟨List.replicate 8 0, by simp⟩

/-- The eight bytes at the start of a buffer (`memcpy(temp, input, 8)`).  A
buffer shorter than eight bytes is padded with zeroes; no call with a length
that is a multiple of eight reads there. -/
def readBlock (p : List Byte) : Block :=
  ⟨p.take 8 ++ List.replicate (8 - p.length) 0, by
    simp only [List.length_append, List.length_take, List.length_replicate]; omega⟩

/-- The loop `for (i = 0; i < 8; i++) out[i] = (unsigned char)(a[i] ^ b[i])`. -/
def xorBlock (a b : Block) : Block :=
  ⟨List.zipWith (fun x y => x ^^^ y) a.val b.val, by
    simp [List.length_zipWith, a.property, b.property]⟩

/-! ## The backend -/

/-- The `mbedtls_des_context`: the round-key words `sk[32]`. -/
structure mbedtls_des_context where
  sk : List Nat
deriving DecidableEq, Repr

/-- The context with every round-key word zero. -/
def zero_des_context : mbedtls_des_context := ⟨List.replicate 32 0⟩

/-- Modelled from the spec: `mbedtls_des_init` (library code, not among the
sources) clears the backend state. -/
def mbedtls_des_init (_ctx : mbedtls_des_context) : mbedtls_des_context :=
  zero_des_context

/-- Modelled from the spec: `mbedtls_des_free` (library code, not among the
sources) releases the backend state by zeroising it. -/
def mbedtls_des_free (_ctx : mbedtls_des_context) : mbedtls_des_context :=
  zero_des_context

/-- Modelled from the spec: the Backend Primitive interface of the library
(not among the sources): key expansion per direction, returning the library's
status and the new key schedule, and the block transform under a key
schedule. -/
structure DesBackend where
  mbedtls_des_setkey_enc : mbedtls_des_context → List Byte → Int × mbedtls_des_context
  mbedtls_des_setkey_dec : mbedtls_des_context → List Byte → Int × mbedtls_des_context
  mbedtls_des_crypt_ecb : mbedtls_des_context → Block → Block

/-- The encrypt loop of the CBC driver, `n` blocks:
`out = ecb(in ^ iv); iv = out`. -/
def cbc_encrypt_blocks (B : DesBackend) (sk : mbedtls_des_context) :
    Nat → Block → List Byte → Block × List Byte
  | 0, iv, _ => (iv, [])
  | n + 1, iv, input =>
    let output := B.mbedtls_des_crypt_ecb sk (xorBlock (readBlock input) iv)
    let r := cbc_encrypt_blocks B sk n output (input.drop 8)
    (r.1, output.val ++ r.2)

/-- The decrypt loop of the CBC driver, `n` blocks:
`temp = in; out = ecb(in) ^ iv; iv = temp`. -/
def cbc_decrypt_blocks (B : DesBackend) (sk : mbedtls_des_context) :
    Nat → Block → List Byte → Block × List Byte
  | 0, iv, _ => (iv, [])
  | n + 1, iv, input =>
    let temp := readBlock input
    let output := xorBlock (B.mbedtls_des_crypt_ecb sk temp) iv
    let r := cbc_decrypt_blocks B sk n temp (input.drop 8)
    (r.1, output.val ++ r.2)

/-- Modelled from the spec: `mbedtls_des_crypt_cbc` (library code, not among
the sources), standard CBC over the block primitive with the chaining vector
carried in `iv`.  A length that is not a multiple of 8 is refused before
anything is written; otherwise `length / 8` blocks are processed and the
status is 0.  The result is the status, the new `iv` and the bytes written to
the output. -/
def mbedtls_des_crypt_cbc (B : DesBackend) (ctx : mbedtls_des_context) (mode : Int)
    (length : Nat) (iv : Block) (input : List Byte) : Int × Block × List Byte :=
  if length % 8 ≠ 0 then (MBEDTLS_ERR_DES_INVALID_INPUT_LENGTH, iv, [])
  else if mode = MBEDTLS_DES_ENCRYPT then
    let r := cbc_encrypt_blocks B ctx (length / 8) iv input
    (0, r.1, r.2)
  else
    let r := cbc_decrypt_blocks B ctx (length / 8) iv input
    (0, r.1, r.2)

/-! ## Contexts and storage -/

/-- The value of a `const struct crypto_cipher_ops *`: null, the table
`mbed_des_cbc_ops` of this file, or the table of another backend. -/
inductive OpsRef where
  | null
  | mbed_des_cbc_ops
  | other (id : Nat)
deriving DecidableEq, Repr

/-- The `struct mbed_des_cbc_ctx`; `ops` is the field `ctx.ops`. -/
structure mbed_des_cbc_ctx where
  ops : OpsRef
  mbed_mode : Int
  des_ctx : mbedtls_des_context
  iv : Block
deriving DecidableEq

/-- A pointer; 0 is `NULL`. -/
abbrev Ptr := Nat

/-- A region of storage obtained from `calloc`: its contents and whether it
is still allocated.  `free` only clears `live`. -/
structure Cell where
  obj : mbed_des_cbc_ctx
  live : Bool
deriving DecidableEq

/-- The storage: what each address designates. -/
abbrev Heap := Ptr → Option Cell

/-- Store a cell at an address. -/
def Heap.write (h : Heap) (p : Ptr) (c : Cell) : Heap :=
  fun q => if q = p then some c else h q

/-- The zero-filled object `calloc` hands out. -/
def zeroed_ctx : mbed_des_cbc_ctx :=
  { ops := OpsRef.null, mbed_mode := 0, des_ctx := zero_des_context, iv := zeroBlock }

/-- The `to_des_cbc_ctx` of the source:
`assert(ctx && ctx->ops == &mbed_des_cbc_ops)`, then the enclosing object. -/
def to_des_cbc_ctx (h : Heap) (ctx : Ptr) : Option mbed_des_cbc_ctx :=
  if ctx = 0 then none
  else match h ctx with
    | some cell =>
      if cell.live = true ∧ cell.obj.ops = OpsRef.mbed_des_cbc_ops then some cell.obj
      else none
    | none => none

/-- The `mbed_des_cbc_init` of the source. -/
def mbed_des_cbc_init (B : DesBackend) (h : Heap) (ctx : Ptr) (mode : TEE_OperationMode)
    (key1 : List Byte) (key1_len : Nat) (iv : List Byte) (iv_len : Nat) :
    Option (TEE_Result × Heap) :=
  match to_des_cbc_ctx h ctx with
  | none => none
  | some c =>
    if key1_len ≠ MBEDTLS_DES_KEY_SIZE then some (TEE_ERROR_BAD_PARAMETERS, h)
    else if iv_len ≠ TEE_DES_BLOCK_SIZE then some (TEE_ERROR_BAD_PARAMETERS, h)
    else
      let c1 := { c with iv := readBlock iv }
      let c2 := { c1 with des_ctx := mbedtls_des_init c1.des_ctx }
      let r := if mode = TEE_MODE_ENCRYPT then
          (MBEDTLS_DES_ENCRYPT, B.mbedtls_des_setkey_enc c2.des_ctx key1)
        else
          (MBEDTLS_DES_DECRYPT, B.mbedtls_des_setkey_dec c2.des_ctx key1)
      let c3 := { c2 with mbed_mode := r.1, des_ctx := r.2.2 }
      let h1 := h.write ctx ⟨c3, true⟩
      if r.2.1 ≠ 0 then some (TEE_ERROR_BAD_STATE, h1)
      else some (TEE_SUCCESS, h1)

/-- The `mbed_des_cbc_update` of the source; the third component is what was
written to `dst`. -/
def mbed_des_cbc_update (B : DesBackend) (h : Heap) (ctx : Ptr) (_last_block : Bool)
    (data : List Byte) (len : Nat) : Option (TEE_Result × Heap × List Byte) :=
  match to_des_cbc_ctx h ctx with
  | none => none
  | some c =>
    let r := mbedtls_des_crypt_cbc B c.des_ctx c.mbed_mode len c.iv data
    let h1 := h.write ctx ⟨{ c with iv := r.2.1 }, true⟩
    if r.1 ≠ 0 then some (TEE_ERROR_BAD_STATE, h1, r.2.2)
    else some (TEE_SUCCESS, h1, r.2.2)

/-- The `mbed_des_cbc_final` of the source. -/
def mbed_des_cbc_final (h : Heap) (ctx : Ptr) : Option Heap :=
  match to_des_cbc_ctx h ctx with
  | none => none
  | some c => some (h.write ctx ⟨{ c with des_ctx := mbedtls_des_free c.des_ctx }, true⟩)

/-- The `mbed_des_cbc_free_ctx` of the source: `free` of the object, which
releases the storage and writes nothing to it. -/
def mbed_des_cbc_free_ctx (h : Heap) (ctx : Ptr) : Option Heap :=
  match to_des_cbc_ctx h ctx with
  | none => none
  | some c => some (h.write ctx ⟨c, false⟩)

/-- The `mbed_des_cbc_copy_state` of the source. -/
def mbed_des_cbc_copy_state (h : Heap) (dst_ctx src_ctx : Ptr) : Option Heap :=
  match to_des_cbc_ctx h src_ctx with
  | none => none
  | some src =>
    match to_des_cbc_ctx h dst_ctx with
    | none => none
    | some dst =>
      some (h.write dst_ctx
        ⟨{ dst with iv := src.iv, mbed_mode := src.mbed_mode, des_ctx := src.des_ctx }, true⟩)

/-- The `crypto_des_cbc_alloc_ctx` of the source.  `c` is what `calloc`
returned: `NULL`, or the address of fresh zero-filled storage.  The last
component is the value stored through `ctx_ret`, if any. -/
def crypto_des_cbc_alloc_ctx (h : Heap) (c : Ptr) : TEE_Result × Heap × Option Ptr :=
  if c = 0 then (TEE_ERROR_OUT_OF_MEMORY, h, none)
  else
    (TEE_SUCCESS, h.write c ⟨{ zeroed_ctx with ops := OpsRef.mbed_des_cbc_ops }, true⟩, some c)

/-- The `convert_ltc_verify_status` of the source. -/
def convert_ltc_verify_status (ltc_res ltc_stat : Int) : TEE_Result :=
  if ltc_res = CRYPT_OK then
    if ltc_stat = 1 then TEE_SUCCESS else TEE_ERROR_SIGNATURE_INVALID
  else if ltc_res = CRYPT_INVALID_PACKET then TEE_ERROR_SIGNATURE_INVALID
  else TEE_ERROR_GENERIC

/-! ## Derived definitions used to state the properties -/

/-- What the CBC driver does to the chaining vector of a context object and
what it writes, for a buffer whose length is a multiple of 8. -/
def cbc_run (B : DesBackend) (c : mbed_des_cbc_ctx) (data : List Byte) : Block × List Byte :=
  if c.mbed_mode = MBEDTLS_DES_ENCRYPT then
    cbc_encrypt_blocks B c.des_ctx (data.length / 8) c.iv data
  else
    cbc_decrypt_blocks B c.des_ctx (data.length / 8) c.iv data

/-- A caller feeding a message to one context piece by piece: one
`mbed_des_cbc_update` per piece, in order, the outputs concatenated.  The
result is `none` as soon as a call does not return `TEE_SUCCESS`. -/
def mbed_des_cbc_update_pieces (B : DesBackend) (h : Heap) (ctx : Ptr) :
    List (List Byte) → Option (Heap × List Byte)
  | [] => some (h, [])
  | d :: ds =>
    match mbed_des_cbc_update B h ctx false d d.length with
    | some (res, h1, out) =>
      if res = TEE_SUCCESS then
        match mbed_des_cbc_update_pieces B h1 ctx ds with
        | some (h2, outs) => some (h2, out ++ outs)
        | none => none
      else none
    | none => none

/-- The bytes of the first eight round-key words, as a block. -/
def sk_block (sk : mbedtls_des_context) : Block :=
  readBlock (sk.sk.map (fun w => (Fin.ofNat w : Byte)))

/-- A small instance of the backend interface on which the definitions can be
evaluated: key expansion stores the key bytes in the round-key words and
reports 0, and the block transform is the exclusive-or with them. -/
def xorBackend : DesBackend where
  mbedtls_des_setkey_enc := fun _ key =>
    (0, ⟨key.map Fin.val ++ List.replicate (32 - key.length) 0⟩)
  mbedtls_des_setkey_dec := fun _ key =>
    (0, ⟨key.map Fin.val ++ List.replicate (32 - key.length) 0⟩)
  mbedtls_des_crypt_ecb := fun sk b => xorBlock b (sk_block sk)

/-- The empty storage. -/
def emptyHeap : Heap := fun _ => none

/-- The storage after one successful `crypto_des_cbc_alloc_ctx` at address 1. -/
def heapAllocated : Heap := (crypto_des_cbc_alloc_ctx emptyHeap 1).2.1

/-- A sample key. -/
def sampleKey : List Byte := [1, 2, 3, 4, 5, 6, 7, 8]

/-- A sample initialisation vector. -/
def sampleIv : List Byte := [16, 32, 48, 64, 80, 96, 112, 128]

/-- The storage after `crypto_des_cbc_alloc_ctx` at address 1 followed by
`mbed_des_cbc_init` for encryption with the sample key and vector. -/
def heapReady : Heap :=
  match mbed_des_cbc_init xorBackend heapAllocated 1 TEE_MODE_ENCRYPT sampleKey 8 sampleIv 8 with
  | some r => r.2
  | none => heapAllocated

/-- The context object of `heapReady` at address 1. -/
def readyCtx : mbed_des_cbc_ctx :=
  { ops := OpsRef.mbed_des_cbc_ops, mbed_mode := 1,
    des_ctx := ⟨[1, 2, 3, 4, 5, 6, 7, 8] ++ List.replicate 24 0⟩,
    iv := ⟨sampleIv, rfl⟩ }

/-- The context object of `heapAllocated` at address 1. -/
def allocatedCtx : mbed_des_cbc_ctx :=
  { zeroed_ctx with ops := OpsRef.mbed_des_cbc_ops }

/-- The storage `heapReady` after a second `crypto_des_cbc_alloc_ctx`, at
address 2. -/
def heapTwo : Heap := (crypto_des_cbc_alloc_ctx heapReady 2).2.1

/-- The storage `heapReady` after `mbed_des_cbc_final` on address 1. -/
def heapFinal : Heap :=
  match mbed_des_cbc_final heapReady 1 with
  | some g => g
  | none => heapReady

/-! ## Lemmas on blocks and on the CBC loops -/
theorem xor_byte_cancel (a b : Byte) : (a ^^^ b) ^^^ b = a := by
  apply Fin.ext
  have ha := a.isLt
  have hb := b.isLt
  have h1 : a.val ^^^ b.val < 256 := Nat.xor_lt_two_pow (n := 8) ha hb
  show ((a.val ^^^ b.val) % 256 ^^^ b.val) % 256 = a.val
  rw [Nat.mod_eq_of_lt h1, Nat.xor_assoc, Nat.xor_self, Nat.xor_zero, Nat.mod_eq_of_lt ha]

theorem zipWith_xor_cancel : ∀ (a b : List Byte), a.length = b.length →
    List.zipWith (fun x y => x ^^^ y) (List.zipWith (fun x y => x ^^^ y) a b) b = a
  | [], [], _ => rfl
  | [], _ :: _, h => by simp at h
  | _ :: _, [], h => by simp at h
  | x :: a, y :: b, h => by
    simp only [List.zipWith_cons_cons, xor_byte_cancel, List.cons.injEq, true_and]
    exact zipWith_xor_cancel a b (by simpa using h)

theorem xorBlock_cancel (a b : Block) : xorBlock (xorBlock a b) b = a := by
  apply Subtype.ext
  exact zipWith_xor_cancel a.val b.val (by rw [a.property, b.property])

theorem readBlock_append (p q : List Byte) (h : 8 ≤ p.length) :
    readBlock (p ++ q) = readBlock p := by
  apply Subtype.ext
  simp only [readBlock, List.length_append]
  rw [List.take_append_of_le_length h]
  have h1 : 8 - (p.length + q.length) = 0 := by omega
  have h2 : 8 - p.length = 0 := by omega
  rw [h1, h2]

theorem readBlock_val_append (b : Block) (q : List Byte) : readBlock (b.val ++ q) = b := by
  apply Subtype.ext
  simp only [readBlock, List.length_append, b.property]
  rw [List.take_append_of_le_length (by rw [b.property])]
  simp [List.take_of_length_le, b.property]

theorem readBlock_val_drop (p : List Byte) (h : 8 ≤ p.length) :
    (readBlock p).val ++ p.drop 8 = p := by
  simp only [readBlock]
  have h2 : 8 - p.length = 0 := by omega
  rw [h2]
  simp

theorem val_append_drop (b : Block) (q : List Byte) : (b.val ++ q).drop 8 = q := by
  have h := b.property
  rw [List.drop_append_of_le_length (by omega)]
  simp [List.drop_of_length_le, h]

theorem cbc_encrypt_blocks_length (B : DesBackend) (sk : mbedtls_des_context) :
    ∀ (n : Nat) (iv : Block) (p : List Byte), (cbc_encrypt_blocks B sk n iv p).2.length = 8 * n
  | 0, _, _ => rfl
  | n + 1, iv, p => by
    simp only [cbc_encrypt_blocks, List.length_append, cbc_encrypt_blocks_length B sk n]
    have := (B.mbedtls_des_crypt_ecb sk (xorBlock (readBlock p) iv)).property
    omega

theorem cbc_decrypt_blocks_length (B : DesBackend) (sk : mbedtls_des_context) :
    ∀ (n : Nat) (iv : Block) (p : List Byte), (cbc_decrypt_blocks B sk n iv p).2.length = 8 * n
  | 0, _, _ => rfl
  | n + 1, iv, p => by
    simp only [cbc_decrypt_blocks, List.length_append, cbc_decrypt_blocks_length B sk n]
    have := (xorBlock (B.mbedtls_des_crypt_ecb sk (readBlock p)) iv).property
    omega

theorem cbc_encrypt_blocks_append (B : DesBackend) (sk : mbedtls_des_context) (n2 : Nat)
    (p2 : List Byte) :
    ∀ (n1 : Nat) (iv : Block) (p1 : List Byte), p1.length = 8 * n1 →
      cbc_encrypt_blocks B sk (n1 + n2) iv (p1 ++ p2) =
        ((cbc_encrypt_blocks B sk n2 (cbc_encrypt_blocks B sk n1 iv p1).1 p2).1,
         (cbc_encrypt_blocks B sk n1 iv p1).2 ++
           (cbc_encrypt_blocks B sk n2 (cbc_encrypt_blocks B sk n1 iv p1).1 p2).2)
  | 0, iv, p1, h => by
    have hp : p1 = [] := List.length_eq_zero.mp (by omega)
    subst hp
    simp [cbc_encrypt_blocks]
  | n1 + 1, iv, p1, h => by
    have h8 : 8 ≤ p1.length := by omega
    have hd : (p1.drop 8).length = 8 * n1 := by rw [List.length_drop]; omega
    have e : n1 + 1 + n2 = (n1 + n2) + 1 := by omega
    rw [e]
    simp only [cbc_encrypt_blocks]
    rw [readBlock_append p1 p2 h8, List.drop_append_of_le_length h8,
      cbc_encrypt_blocks_append B sk n2 p2 n1 _ (p1.drop 8) hd]
    simp

theorem cbc_decrypt_blocks_append (B : DesBackend) (sk : mbedtls_des_context) (n2 : Nat)
    (p2 : List Byte) :
    ∀ (n1 : Nat) (iv : Block) (p1 : List Byte), p1.length = 8 * n1 →
      cbc_decrypt_blocks B sk (n1 + n2) iv (p1 ++ p2) =
        ((cbc_decrypt_blocks B sk n2 (cbc_decrypt_blocks B sk n1 iv p1).1 p2).1,
         (cbc_decrypt_blocks B sk n1 iv p1).2 ++
           (cbc_decrypt_blocks B sk n2 (cbc_decrypt_blocks B sk n1 iv p1).1 p2).2)
  | 0, iv, p1, h => by
    have hp : p1 = [] := List.length_eq_zero.mp (by omega)
    subst hp
    simp [cbc_decrypt_blocks]
  | n1 + 1, iv, p1, h => by
    have h8 : 8 ≤ p1.length := by omega
    have hd : (p1.drop 8).length = 8 * n1 := by rw [List.length_drop]; omega
    have e : n1 + 1 + n2 = (n1 + n2) + 1 := by omega
    rw [e]
    simp only [cbc_decrypt_blocks]
    rw [readBlock_append p1 p2 h8, List.drop_append_of_le_length h8,
      cbc_decrypt_blocks_append B sk n2 p2 n1 _ (p1.drop 8) hd]
    simp

/-- Decrypting what the encrypt loop produced gives the input back. -/
theorem cbc_decrypt_encrypt_blocks (B : DesBackend) (ske skd : mbedtls_des_context)
    (hinv : ∀ b : Block, B.mbedtls_des_crypt_ecb skd (B.mbedtls_des_crypt_ecb ske b) = b) :
    ∀ (n : Nat) (iv : Block) (p : List Byte), p.length = 8 * n →
      (cbc_decrypt_blocks B skd n iv (cbc_encrypt_blocks B ske n iv p).2).2 = p
  | 0, _, p, h => by
    have hp : p = [] := List.length_eq_zero.mp (by omega)
    simp [cbc_decrypt_blocks, hp]
  | n + 1, iv, p, h => by
    have h8 : 8 ≤ p.length := by omega
    have hd : (p.drop 8).length = 8 * n := by rw [List.length_drop]; omega
    simp only [cbc_encrypt_blocks, cbc_decrypt_blocks]
    rw [readBlock_val_append, val_append_drop, hinv, xorBlock_cancel,
      cbc_decrypt_encrypt_blocks B ske skd hinv n _ (p.drop 8) hd]
    exact readBlock_val_drop p h8

/-- After at least one block, the encrypt loop leaves the last output block in `iv`. -/
theorem cbc_encrypt_blocks_iv (B : DesBackend) (sk : mbedtls_des_context) :
    ∀ (n : Nat) (iv : Block) (p : List Byte),
      (cbc_encrypt_blocks B sk (n + 1) iv p).1.val =
        (cbc_encrypt_blocks B sk (n + 1) iv p).2.drop (8 * n)
  | 0, iv, p => by
    simp [cbc_encrypt_blocks]
  | n + 1, iv, p => by
    have ih := cbc_encrypt_blocks_iv B sk n
      (B.mbedtls_des_crypt_ecb sk (xorBlock (readBlock p) iv)) (p.drop 8)
    rw [cbc_encrypt_blocks]
    simp only
    rw [ih]
    have e : 8 * (n + 1) = 8 + 8 * n := by omega
    rw [e, ← List.drop_drop, val_append_drop]

/-- After at least one block, the decrypt loop leaves the last input block in `iv`. -/
theorem cbc_decrypt_blocks_iv (B : DesBackend) (sk : mbedtls_des_context) :
    ∀ (n : Nat) (iv : Block) (p : List Byte), p.length = 8 * (n + 1) →
      (cbc_decrypt_blocks B sk (n + 1) iv p).1.val = p.drop (8 * n)
  | 0, iv, p, h => by
    have h8 : 8 ≤ p.length := by omega
    have := readBlock_val_drop p h8
    have hd : p.drop 8 = [] := List.drop_of_length_le (by omega)
    rw [hd, List.append_nil] at this
    simp [cbc_decrypt_blocks, this]
  | n + 1, iv, p, h => by
    have hd : (p.drop 8).length = 8 * (n + 1) := by rw [List.length_drop]; omega
    have ih := cbc_decrypt_blocks_iv B sk n (readBlock p) (p.drop 8) hd
    rw [cbc_decrypt_blocks]
    simp only
    rw [ih, List.drop_drop]
    congr 1
    omega

/-! ## Lemmas on storage and on single calls -/

theorem to_des_cbc_ctx_some {h : Heap} {ctx : Ptr} {c : mbed_des_cbc_ctx}
    (hc : to_des_cbc_ctx h ctx = some c) :
    ctx ≠ 0 ∧ h ctx = some ⟨c, true⟩ ∧ c.ops = OpsRef.mbed_des_cbc_ops := by
  unfold to_des_cbc_ctx at hc
  by_cases h0 : ctx = 0
  · simp [h0] at hc
  · rw [if_neg h0] at hc
    cases hx : h ctx with
    | none => simp [hx] at hc
    | some cell =>
      rw [hx] at hc
      obtain ⟨obj, live⟩ := cell
      by_cases hl : live = true ∧ obj.ops = OpsRef.mbed_des_cbc_ops
      · simp only [hl, and_self, if_true, Option.some.injEq] at hc
        subst hc
        exact ⟨h0, by rw [hl.1], hl.2⟩
      · simp only [hl, if_false] at hc
        exact absurd hc (by simp)

theorem to_des_cbc_ctx_of {h : Heap} {ctx : Ptr} {c : mbed_des_cbc_ctx}
    (h0 : ctx ≠ 0) (hx : h ctx = some ⟨c, true⟩) (hops : c.ops = OpsRef.mbed_des_cbc_ops) :
    to_des_cbc_ctx h ctx = some c := by
  simp [to_des_cbc_ctx, h0, hx, hops]

theorem Heap.write_same (h : Heap) (p : Ptr) (c : Cell) : (h.write p c) p = some c := by
  simp [Heap.write]

theorem Heap.write_other (h : Heap) (p q : Ptr) (c : Cell) (hne : q ≠ p) :
    (h.write p c) q = h q := by
  simp [Heap.write, hne]

theorem Heap.write_write (h : Heap) (p : Ptr) (a b : Cell) :
    (h.write p a).write p b = h.write p b := by
  funext q
  by_cases hq : q = p <;> simp [Heap.write, hq]

theorem Heap.write_self (h : Heap) (p : Ptr) (c : Cell) (hp : h p = some c) :
    h.write p c = h := by
  funext q
  by_cases hq : q = p
  · subst hq; simp [Heap.write, hp]
  · simp [Heap.write, hq]

theorem to_des_cbc_ctx_write_same (h : Heap) (ctx : Ptr) (c : mbed_des_cbc_ctx)
    (h0 : ctx ≠ 0) (hops : c.ops = OpsRef.mbed_des_cbc_ops) :
    to_des_cbc_ctx (h.write ctx ⟨c, true⟩) ctx = some c :=
  to_des_cbc_ctx_of h0 (Heap.write_same h ctx _) hops

theorem to_des_cbc_ctx_write_other (h : Heap) (p q : Ptr) (cell : Cell) (hne : q ≠ p) :
    to_des_cbc_ctx (h.write p cell) q = to_des_cbc_ctx h q := by
  simp [to_des_cbc_ctx, Heap.write_other h p q cell hne]

theorem cbc_run_length (B : DesBackend) (c : mbed_des_cbc_ctx) (data : List Byte)
    (hlen : data.length % 8 = 0) : (cbc_run B c data).2.length = data.length := by
  unfold cbc_run
  split
  · rw [cbc_encrypt_blocks_length]; omega
  · rw [cbc_decrypt_blocks_length]; omega

theorem cbc_run_append (B : DesBackend) (c : mbed_des_cbc_ctx) (p1 p2 : List Byte)
    (h1 : p1.length % 8 = 0) (h2 : p2.length % 8 = 0) :
    cbc_run B c (p1 ++ p2) =
      ((cbc_run B { c with iv := (cbc_run B c p1).1 } p2).1,
       (cbc_run B c p1).2 ++ (cbc_run B { c with iv := (cbc_run B c p1).1 } p2).2) := by
  have e : (p1 ++ p2).length / 8 = p1.length / 8 + p2.length / 8 := by
    rw [List.length_append]; omega
  have e1 : p1.length = 8 * (p1.length / 8) := by omega
  unfold cbc_run
  rw [e]
  by_cases hm : c.mbed_mode = MBEDTLS_DES_ENCRYPT
  · simp only [hm, if_true]
    exact cbc_encrypt_blocks_append B c.des_ctx _ p2 _ c.iv p1 e1
  · simp only [hm, if_false]
    exact cbc_decrypt_blocks_append B c.des_ctx _ p2 _ c.iv p1 e1

/-- A call with a block-aligned length on a context bound to the table. -/
theorem mbed_des_cbc_update_aligned (B : DesBackend) (h : Heap) (ctx : Ptr)
    (c : mbed_des_cbc_ctx) (lb : Bool) (data : List Byte)
    (hc : to_des_cbc_ctx h ctx = some c) (hlen : data.length % 8 = 0) :
    mbed_des_cbc_update B h ctx lb data data.length =
      some (TEE_SUCCESS, h.write ctx ⟨{ c with iv := (cbc_run B c data).1 }, true⟩,
        (cbc_run B c data).2) := by
  unfold mbed_des_cbc_update mbedtls_des_crypt_cbc cbc_run
  rw [hc]
  by_cases hm : c.mbed_mode = MBEDTLS_DES_ENCRYPT <;> simp [hm, hlen]

/-- A call with a length that is not block-aligned. -/
theorem mbed_des_cbc_update_unaligned (B : DesBackend) (h : Heap) (ctx : Ptr)
    (c : mbed_des_cbc_ctx) (lb : Bool) (data : List Byte) (len : Nat)
    (hc : to_des_cbc_ctx h ctx = some c) (hlen : len % 8 ≠ 0) :
    mbed_des_cbc_update B h ctx lb data len = some (TEE_ERROR_BAD_STATE, h, []) := by
  unfold mbed_des_cbc_update mbedtls_des_crypt_cbc
  rw [hc]
  have hw : h.write ctx ⟨c, true⟩ = h := Heap.write_self h ctx _ (to_des_cbc_ctx_some hc).2.1
  simp [hlen, MBEDTLS_ERR_DES_INVALID_INPUT_LENGTH, hw]

theorem readBlock_val_of_length (p : List Byte) (h : p.length = 8) : (readBlock p).val = p := by
  have := readBlock_val_drop p (by omega)
  have hd : p.drop 8 = [] := List.drop_of_length_le (by omega)
  rwa [hd, List.append_nil] at this

theorem cbc_run_nil (B : DesBackend) (c : mbed_des_cbc_ctx) : cbc_run B c [] = (c.iv, []) := by
  unfold cbc_run
  split <;> rfl

/-- Feeding block-aligned pieces one by one is one run of the driver over
their concatenation. -/
theorem mbed_des_cbc_update_pieces_eq (B : DesBackend) (ctx : Ptr) :
    ∀ (pieces : List (List Byte)) (h : Heap) (c : mbed_des_cbc_ctx),
      to_des_cbc_ctx h ctx = some c → (∀ d ∈ pieces, d.length % 8 = 0) →
      mbed_des_cbc_update_pieces B h ctx pieces =
        some (h.write ctx ⟨{ c with iv := (cbc_run B c pieces.flatten).1 }, true⟩,
          (cbc_run B c pieces.flatten).2)
  | [], h, c, hc, _ => by
    have hw : h.write ctx ⟨c, true⟩ = h := Heap.write_self h ctx _ (to_des_cbc_ctx_some hc).2.1
    simp [mbed_des_cbc_update_pieces, cbc_run_nil, hw]
  | d :: ds, h, c, hc, hal => by
    have hd : d.length % 8 = 0 := hal d (List.mem_cons_self d ds)
    have hds : ∀ x ∈ ds, x.length % 8 = 0 := fun x hx => hal x (List.mem_cons_of_mem d hx)
    have hfl : ds.flatten.length % 8 = 0 := by
      clear hal hd
      induction ds with
      | nil => simp
      | cons x xs ih =>
        have hx := hds x (List.mem_cons_self x xs)
        have hxs := ih (fun y hy => hds y (List.mem_cons_of_mem x hy))
        rw [List.flatten_cons, List.length_append]
        omega
    obtain ⟨h0, _, hops⟩ := to_des_cbc_ctx_some hc
    have hc1 : to_des_cbc_ctx (h.write ctx ⟨{ c with iv := (cbc_run B c d).1 }, true⟩) ctx =
        some { c with iv := (cbc_run B c d).1 } :=
      to_des_cbc_ctx_write_same h ctx _ h0 hops
    rw [mbed_des_cbc_update_pieces, mbed_des_cbc_update_aligned B h ctx c false d hc hd]
    simp only [if_true]
    rw [mbed_des_cbc_update_pieces_eq B ctx ds _ _ hc1 hds, Heap.write_write,
      List.flatten_cons, cbc_run_append B c d ds.flatten hd hfl]

/-! ## The claims -/

/-- C1. Split-call equivalence: on a context bound to the DES-CBC table, two
`mbed_des_cbc_update` calls on block-aligned `P1` then `P2` both return
`TEE_SUCCESS`, and one call on `P1 ++ P2` returns `TEE_SUCCESS` with the
concatenation of their outputs and the same final storage. -/
theorem split_call_equivalence (B : DesBackend) (h : Heap) (ctx : Ptr) (c : mbed_des_cbc_ctx)
    (lb1 lb2 lb : Bool) (P1 P2 : List Byte)
    (hc : to_des_cbc_ctx h ctx = some c)
    (h1 : P1.length % 8 = 0) (h2 : P2.length % 8 = 0) :
    ∃ hA oA hB oB,
      mbed_des_cbc_update B h ctx lb1 P1 P1.length = some (TEE_SUCCESS, hA, oA) ∧
      mbed_des_cbc_update B hA ctx lb2 P2 P2.length = some (TEE_SUCCESS, hB, oB) ∧
      mbed_des_cbc_update B h ctx lb (P1 ++ P2) (P1 ++ P2).length =
        some (TEE_SUCCESS, hB, oA ++ oB) := by
  obtain ⟨h0, _, hops⟩ := to_des_cbc_ctx_some hc
  have hcA : to_des_cbc_ctx (h.write ctx ⟨{ c with iv := (cbc_run B c P1).1 }, true⟩) ctx =
      some { c with iv := (cbc_run B c P1).1 } :=
    to_des_cbc_ctx_write_same h ctx _ h0 hops
  have h12 : (P1 ++ P2).length % 8 = 0 := by rw [List.length_append]; omega
  refine ⟨_, _, _, _, mbed_des_cbc_update_aligned B h ctx c lb1 P1 hc h1,
    mbed_des_cbc_update_aligned B _ ctx _ lb2 P2 hcA h2, ?_⟩
  rw [mbed_des_cbc_update_aligned B h ctx c lb (P1 ++ P2) hc h12, Heap.write_write,
    cbc_run_append B c P1 P2 h1 h2]

theorem split_call_equivalence_witness :
    ∃ hA oA hB oB,
      mbed_des_cbc_update xorBackend heapReady 1 false sampleKey sampleKey.length =
        some (TEE_SUCCESS, hA, oA) ∧
      mbed_des_cbc_update xorBackend hA 1 true (sampleIv ++ sampleKey)
        (sampleIv ++ sampleKey).length = some (TEE_SUCCESS, hB, oB) ∧
      mbed_des_cbc_update xorBackend heapReady 1 true (sampleKey ++ (sampleIv ++ sampleKey))
        (sampleKey ++ (sampleIv ++ sampleKey)).length = some (TEE_SUCCESS, hB, oA ++ oB) :=
  split_call_equivalence xorBackend heapReady 1 readyCtx false true true sampleKey
    (sampleIv ++ sampleKey) (by decide) (by decide) (by decide)

/-- A call of `mbed_des_cbc_init` with the two lengths right, on a context
bound to the table. -/
theorem mbed_des_cbc_init_sized (B : DesBackend) (h : Heap) (ctx : Ptr) (c : mbed_des_cbc_ctx)
    (mode : TEE_OperationMode) (key1 iv : List Byte)
    (hc : to_des_cbc_ctx h ctx = some c)
    (hk : key1.length = MBEDTLS_DES_KEY_SIZE) (hiv : iv.length = TEE_DES_BLOCK_SIZE) :
    mbed_des_cbc_init B h ctx mode key1 key1.length iv iv.length =
      some
        (if (if mode = TEE_MODE_ENCRYPT
              then B.mbedtls_des_setkey_enc (mbedtls_des_init c.des_ctx) key1
              else B.mbedtls_des_setkey_dec (mbedtls_des_init c.des_ctx) key1).1 ≠ 0
          then TEE_ERROR_BAD_STATE else TEE_SUCCESS,
         h.write ctx
          ⟨{ c with
              iv := readBlock iv
              mbed_mode :=
                if mode = TEE_MODE_ENCRYPT then MBEDTLS_DES_ENCRYPT else MBEDTLS_DES_DECRYPT
              des_ctx :=
                (if mode = TEE_MODE_ENCRYPT
                  then B.mbedtls_des_setkey_enc (mbedtls_des_init c.des_ctx) key1
                  else B.mbedtls_des_setkey_dec (mbedtls_des_init c.des_ctx) key1).2 },
            true⟩) := by
  unfold mbed_des_cbc_init
  rw [hc]
  by_cases hm : mode = TEE_MODE_ENCRYPT
  · by_cases hr : (B.mbedtls_des_setkey_enc (mbedtls_des_init c.des_ctx) key1).1 = 0 <;>
      simp [hk, hiv, hm, hr]
  · by_cases hr : (B.mbedtls_des_setkey_dec (mbedtls_des_init c.des_ctx) key1).1 = 0 <;>
      simp [hk, hiv, hm, hr]

/-- C3. Chaining-vector source: after a successful `mbed_des_cbc_update` over
`N >= 1` whole blocks the chaining vector is the last ciphertext block of the
call, that is the last 8 output bytes when the direction is encrypt and the
last 8 input bytes when it is decrypt; over no block it is unchanged. -/
theorem chaining_vector_source (B : DesBackend) (h : Heap) (ctx : Ptr) (c : mbed_des_cbc_ctx)
    (lb : Bool) (data : List Byte)
    (hc : to_des_cbc_ctx h ctx = some c) (hlen : data.length % 8 = 0) :
    ∃ h1 out c1,
      mbed_des_cbc_update B h ctx lb data data.length = some (TEE_SUCCESS, h1, out) ∧
      to_des_cbc_ctx h1 ctx = some c1 ∧
      out.length = data.length ∧
      (data.length = 0 → c1.iv = c.iv) ∧
      (0 < data.length → c.mbed_mode = MBEDTLS_DES_ENCRYPT →
        c1.iv.val = out.drop (out.length - 8)) ∧
      (0 < data.length → c.mbed_mode ≠ MBEDTLS_DES_ENCRYPT →
        c1.iv.val = data.drop (data.length - 8)) := by
  obtain ⟨h0, _, hops⟩ := to_des_cbc_ctx_some hc
  refine ⟨_, _, _, mbed_des_cbc_update_aligned B h ctx c lb data hc hlen,
    to_des_cbc_ctx_write_same h ctx _ h0 hops, cbc_run_length B c data hlen, ?_, ?_, ?_⟩
  · intro hz
    have hd : data = [] := List.length_eq_zero.mp hz
    simp [hd, cbc_run_nil]
  · intro hpos hm
    rw [cbc_run_length B c data hlen]
    obtain ⟨n, hn⟩ : ∃ n, data.length / 8 = n + 1 := ⟨data.length / 8 - 1, by omega⟩
    have e : data.length - 8 = 8 * n := by omega
    show (cbc_run B c data).1.val = (cbc_run B c data).2.drop (data.length - 8)
    unfold cbc_run
    rw [if_pos hm, hn, e]
    exact cbc_encrypt_blocks_iv B c.des_ctx n c.iv data
  · intro hpos hm
    obtain ⟨n, hn⟩ : ∃ n, data.length / 8 = n + 1 := ⟨data.length / 8 - 1, by omega⟩
    have e : data.length - 8 = 8 * n := by omega
    show (cbc_run B c data).1.val = data.drop (data.length - 8)
    unfold cbc_run
    rw [if_neg hm, hn, e]
    exact cbc_decrypt_blocks_iv B c.des_ctx n c.iv data (by omega)

theorem chaining_vector_source_witness :
    ∃ h1 out c1,
      mbed_des_cbc_update xorBackend heapReady 1 false (sampleKey ++ sampleIv)
        (sampleKey ++ sampleIv).length = some (TEE_SUCCESS, h1, out) ∧
      to_des_cbc_ctx h1 1 = some c1 ∧
      out.length = (sampleKey ++ sampleIv).length ∧
      ((sampleKey ++ sampleIv).length = 0 → c1.iv = readyCtx.iv) ∧
      (0 < (sampleKey ++ sampleIv).length → readyCtx.mbed_mode = MBEDTLS_DES_ENCRYPT →
        c1.iv.val = out.drop (out.length - 8)) ∧
      (0 < (sampleKey ++ sampleIv).length → readyCtx.mbed_mode ≠ MBEDTLS_DES_ENCRYPT →
        c1.iv.val = (sampleKey ++ sampleIv).drop ((sampleKey ++ sampleIv).length - 8)) :=
  chaining_vector_source xorBackend heapReady 1 readyCtx false (sampleKey ++ sampleIv)
    (by decide) (by decide)

/-- C4. Parameter rejection is atomic: when `key1_len` is not
`MBEDTLS_DES_KEY_SIZE` or `iv_len` is not the block size, `mbed_des_cbc_init`
returns `TEE_ERROR_BAD_PARAMETERS` and the storage, hence every field of the
context, is exactly what it was. -/
theorem init_bad_length_rejected (B : DesBackend) (h : Heap) (ctx : Ptr) (c : mbed_des_cbc_ctx)
    (mode : TEE_OperationMode) (key1 : List Byte) (key1_len : Nat) (iv : List Byte)
    (iv_len : Nat)
    (hc : to_des_cbc_ctx h ctx = some c)
    (hbad : key1_len ≠ MBEDTLS_DES_KEY_SIZE ∨ iv_len ≠ TEE_DES_BLOCK_SIZE) :
    mbed_des_cbc_init B h ctx mode key1 key1_len iv iv_len =
      some (TEE_ERROR_BAD_PARAMETERS, h) := by
  unfold mbed_des_cbc_init
  rw [hc]
  by_cases hk : key1_len = MBEDTLS_DES_KEY_SIZE
  · have hi : iv_len ≠ TEE_DES_BLOCK_SIZE := hbad.resolve_left (fun hn => hn hk)
    simp [hk, hi]
  · simp [hk]

theorem init_bad_length_rejected_witness :
    mbed_des_cbc_init xorBackend heapReady 1 TEE_MODE_DECRYPT (sampleKey ++ sampleKey) 16
      sampleIv 8 = some (TEE_ERROR_BAD_PARAMETERS, heapReady) :=
  init_bad_length_rejected xorBackend heapReady 1 readyCtx TEE_MODE_DECRYPT
    (sampleKey ++ sampleKey) 16 sampleIv 8 (by decide) (Or.inl (by decide))

/-- C5. Result of a well-sized init: with an 8-byte key and an 8-byte IV,
`mbed_des_cbc_init` returns `TEE_SUCCESS` exactly when the key expansion of
the requested direction returns 0 and `TEE_ERROR_BAD_STATE` exactly when it
returns non-zero; on success the chaining vector is the IV, the direction is
encrypt exactly when `mode` is `TEE_MODE_ENCRYPT` and decrypt otherwise, and
the key schedule is the expansion of the key for that direction. -/
theorem init_result (B : DesBackend) (h : Heap) (ctx : Ptr) (c : mbed_des_cbc_ctx)
    (mode : TEE_OperationMode) (key1 iv : List Byte)
    (hc : to_des_cbc_ctx h ctx = some c)
    (hk : key1.length = MBEDTLS_DES_KEY_SIZE) (hiv : iv.length = TEE_DES_BLOCK_SIZE) :
    ∃ res h1 c1,
      mbed_des_cbc_init B h ctx mode key1 key1.length iv iv.length = some (res, h1) ∧
      to_des_cbc_ctx h1 ctx = some c1 ∧
      (res = TEE_SUCCESS ↔
        (if mode = TEE_MODE_ENCRYPT
          then B.mbedtls_des_setkey_enc (mbedtls_des_init c.des_ctx) key1
          else B.mbedtls_des_setkey_dec (mbedtls_des_init c.des_ctx) key1).1 = 0) ∧
      (res = TEE_ERROR_BAD_STATE ↔
        (if mode = TEE_MODE_ENCRYPT
          then B.mbedtls_des_setkey_enc (mbedtls_des_init c.des_ctx) key1
          else B.mbedtls_des_setkey_dec (mbedtls_des_init c.des_ctx) key1).1 ≠ 0) ∧
      (res = TEE_SUCCESS →
        c1.iv.val = iv ∧
        (c1.mbed_mode = MBEDTLS_DES_ENCRYPT ↔ mode = TEE_MODE_ENCRYPT) ∧
        (mode ≠ TEE_MODE_ENCRYPT → c1.mbed_mode = MBEDTLS_DES_DECRYPT) ∧
        (c1.mbed_mode = MBEDTLS_DES_ENCRYPT →
          c1.des_ctx = (B.mbedtls_des_setkey_enc (mbedtls_des_init c.des_ctx) key1).2) ∧
        (c1.mbed_mode ≠ MBEDTLS_DES_ENCRYPT →
          c1.des_ctx = (B.mbedtls_des_setkey_dec (mbedtls_des_init c.des_ctx) key1).2)) := by
  obtain ⟨h0, _, hops⟩ := to_des_cbc_ctx_some hc
  have hivv : (readBlock iv).val = iv := readBlock_val_of_length iv hiv
  refine ⟨_, _, _, mbed_des_cbc_init_sized B h ctx c mode key1 iv hc hk hiv,
    to_des_cbc_ctx_write_same h ctx _ h0 hops, ?_⟩
  by_cases hm : mode = TEE_MODE_ENCRYPT
  · by_cases hr : (B.mbedtls_des_setkey_enc (mbedtls_des_init c.des_ctx) key1).1 = 0
    · simp [hm, hr, hivv, TEE_SUCCESS, TEE_ERROR_BAD_STATE]
    · simp [hm, hr, TEE_SUCCESS, TEE_ERROR_BAD_STATE]
  · by_cases hr : (B.mbedtls_des_setkey_dec (mbedtls_des_init c.des_ctx) key1).1 = 0
    · simp [hm, hr, hivv, TEE_SUCCESS, TEE_ERROR_BAD_STATE, MBEDTLS_DES_ENCRYPT,
        MBEDTLS_DES_DECRYPT]
    · simp [hm, hr, TEE_SUCCESS, TEE_ERROR_BAD_STATE]

theorem init_result_witness :
    ∃ h1 c1,
      mbed_des_cbc_init xorBackend heapAllocated 1 TEE_MODE_ENCRYPT sampleKey 8 sampleIv 8 =
        some (TEE_SUCCESS, h1) ∧
      to_des_cbc_ctx h1 1 = some c1 ∧ c1.iv.val = sampleIv ∧
      c1.mbed_mode = MBEDTLS_DES_ENCRYPT ∧
      c1.des_ctx = (xorBackend.mbedtls_des_setkey_enc zero_des_context sampleKey).2 := by
  obtain ⟨res, h1, c1, hi, hc1, hs, _, hrest⟩ :=
    init_result xorBackend heapAllocated 1 allocatedCtx TEE_MODE_ENCRYPT sampleKey sampleIv
      (by decide) (by decide) (by decide)
  have hres : res = TEE_SUCCESS := hs.mpr (by decide)
  subst hres
  have hm : c1.mbed_mode = MBEDTLS_DES_ENCRYPT := (hrest rfl).2.1.mpr rfl
  exact ⟨h1, c1, hi, hc1, (hrest rfl).1, hm, (hrest rfl).2.2.2.1 hm⟩

/-- C7, as the code has it: a length that is not a multiple of 8 makes
`mbed_des_cbc_update` return `TEE_ERROR_BAD_STATE`, the code it gives for
every backend failure; nothing is written and the storage, hence the
chaining vector, direction and key schedule, is exactly what it was. -/
theorem update_unaligned_bad_state (B : DesBackend) (h : Heap) (ctx : Ptr)
    (c : mbed_des_cbc_ctx) (lb : Bool) (data : List Byte)
    (hc : to_des_cbc_ctx h ctx = some c) (hlen : data.length % 8 ≠ 0) :
    mbed_des_cbc_update B h ctx lb data data.length = some (TEE_ERROR_BAD_STATE, h, []) :=
  mbed_des_cbc_update_unaligned B h ctx c lb data data.length hc hlen

theorem update_unaligned_bad_state_witness :
    mbed_des_cbc_update xorBackend heapReady 1 false [1, 2, 3] 3 =
      some (TEE_ERROR_BAD_STATE, heapReady, []) :=
  update_unaligned_bad_state xorBackend heapReady 1 readyCtx false [1, 2, 3]
    (by decide) (by decide)

/-- C7 fails as stated: on the initialised context at address 1, a 3-byte
input gets `TEE_ERROR_BAD_STATE`, which is not `TEE_ERROR_BAD_PARAMETERS`. -/
theorem update_unaligned_not_bad_parameters :
    to_des_cbc_ctx heapReady 1 = some readyCtx ∧
    (mbed_des_cbc_update xorBackend heapReady 1 false [1, 2, 3] 3).map (fun r => r.1) =
      some TEE_ERROR_BAD_STATE ∧
    (mbed_des_cbc_update xorBackend heapReady 1 false [1, 2, 3] 3).map (fun r => r.1) ≠
      some TEE_ERROR_BAD_PARAMETERS := by
  decide

theorem flatten_length_aligned (ps : List (List Byte)) (hps : ∀ d ∈ ps, d.length % 8 = 0) :
    ps.flatten.length % 8 = 0 := by
  induction ps with
  | nil => simp
  | cons x xs ih =>
    have hx := hps x (List.mem_cons_self x xs)
    have hxs := ih (fun y hy => hps y (List.mem_cons_of_mem x hy))
    rw [List.flatten_cons, List.length_append]
    omega

theorem cbc_run_encrypt (B : DesBackend) (c : mbed_des_cbc_ctx) (data : List Byte)
    (hm : c.mbed_mode = MBEDTLS_DES_ENCRYPT) :
    cbc_run B c data = cbc_encrypt_blocks B c.des_ctx (data.length / 8) c.iv data := by
  unfold cbc_run
  rw [if_pos hm]

theorem cbc_run_decrypt (B : DesBackend) (c : mbed_des_cbc_ctx) (data : List Byte)
    (hm : c.mbed_mode ≠ MBEDTLS_DES_ENCRYPT) :
    cbc_run B c data = cbc_decrypt_blocks B c.des_ctx (data.length / 8) c.iv data := by
  unfold cbc_run
  rw [if_neg hm]

/-- C2. Encrypt/decrypt round trip: with an 8-byte key and IV whose two key
expansions succeed and whose decrypt block transform inverts the encrypt one,
initialising a context for encryption and feeding it any block-aligned pieces
yields a ciphertext of the same length such that, however that ciphertext is
cut into block-aligned pieces, a context initialised for decryption with the
same key and IV and fed those pieces returns the plaintext; every call
returns `TEE_SUCCESS`. -/
theorem encrypt_decrypt_round_trip (B : DesBackend) (key iv : List Byte)
    (ps : List (List Byte)) (h : Heap) (ce : Ptr) (c0 : mbed_des_cbc_ctx)
    (hk : key.length = MBEDTLS_DES_KEY_SIZE) (hiv : iv.length = TEE_DES_BLOCK_SIZE)
    (hps : ∀ d ∈ ps, d.length % 8 = 0)
    (hkE : (B.mbedtls_des_setkey_enc zero_des_context key).1 = 0)
    (hkD : (B.mbedtls_des_setkey_dec zero_des_context key).1 = 0)
    (hinv : ∀ b : Block,
      B.mbedtls_des_crypt_ecb (B.mbedtls_des_setkey_dec zero_des_context key).2
        (B.mbedtls_des_crypt_ecb (B.mbedtls_des_setkey_enc zero_des_context key).2 b) = b)
    (he : to_des_cbc_ctx h ce = some c0) :
    ∃ h1 h2 ct,
      mbed_des_cbc_init B h ce TEE_MODE_ENCRYPT key key.length iv iv.length =
        some (TEE_SUCCESS, h1) ∧
      mbed_des_cbc_update_pieces B h1 ce ps = some (h2, ct) ∧
      ct.length = ps.flatten.length ∧
      ∀ (g : Heap) (cd : Ptr) (c1 : mbed_des_cbc_ctx) (cs : List (List Byte)),
        to_des_cbc_ctx g cd = some c1 → (∀ d ∈ cs, d.length % 8 = 0) → cs.flatten = ct →
        ∃ g1 g2,
          mbed_des_cbc_init B g cd TEE_MODE_DECRYPT key key.length iv iv.length =
            some (TEE_SUCCESS, g1) ∧
          mbed_des_cbc_update_pieces B g1 cd cs = some (g2, ps.flatten) := by
  obtain ⟨he0, _, heops⟩ := to_des_cbc_ctx_some he
  have hal := flatten_length_aligned ps hps
  have hI := mbed_des_cbc_init_sized B h ce c0 TEE_MODE_ENCRYPT key iv he hk hiv
  simp only [if_true, mbedtls_des_init, hkE, ne_eq, not_true_eq_false, if_false] at hI
  have hcE := to_des_cbc_ctx_write_same h ce
    { c0 with iv := readBlock iv, mbed_mode := MBEDTLS_DES_ENCRYPT,
              des_ctx := (B.mbedtls_des_setkey_enc zero_des_context key).2 } he0 heops
  have hP := mbed_des_cbc_update_pieces_eq B ce ps _ _ hcE hps
  refine ⟨_, _, _, hI, hP, cbc_run_length B _ _ hal, ?_⟩
  intro g cd c1 cs hd hcs hfl
  obtain ⟨hd0, _, hdops⟩ := to_des_cbc_ctx_some hd
  have hJ := mbed_des_cbc_init_sized B g cd c1 TEE_MODE_DECRYPT key iv hd hk hiv
  have hne : ¬ (TEE_MODE_DECRYPT = TEE_MODE_ENCRYPT) := by decide
  simp only [hne, if_false, mbedtls_des_init, hkD, ne_eq, not_true_eq_false] at hJ
  have hcD := to_des_cbc_ctx_write_same g cd
    { c1 with iv := readBlock iv, mbed_mode := MBEDTLS_DES_DECRYPT,
              des_ctx := (B.mbedtls_des_setkey_dec zero_des_context key).2 } hd0 hdops
  have hQ := mbed_des_cbc_update_pieces_eq B cd cs _ _ hcD hcs
  have hdm : ¬ (MBEDTLS_DES_DECRYPT = MBEDTLS_DES_ENCRYPT) := by decide
  have hout : (cbc_run B
      { c1 with iv := readBlock iv, mbed_mode := MBEDTLS_DES_DECRYPT,
                des_ctx := (B.mbedtls_des_setkey_dec zero_des_context key).2 }
      (cbc_run B
        { c0 with iv := readBlock iv, mbed_mode := MBEDTLS_DES_ENCRYPT,
                  des_ctx := (B.mbedtls_des_setkey_enc zero_des_context key).2 }
        ps.flatten).2).2 = ps.flatten := by
    have hl := cbc_run_length B
        { c0 with iv := readBlock iv, mbed_mode := MBEDTLS_DES_ENCRYPT,
                  des_ctx := (B.mbedtls_des_setkey_enc zero_des_context key).2 }
        ps.flatten hal
    rw [cbc_run_decrypt B _ _ hdm, hl, cbc_run_encrypt B _ _ rfl]
    exact cbc_decrypt_encrypt_blocks B _ _ hinv (ps.flatten.length / 8) (readBlock iv)
      ps.flatten (by omega)
  rw [hfl, hout] at hQ
  exact ⟨_, _, hJ, hQ⟩

theorem encrypt_decrypt_round_trip_witness :
    ∃ h1 h2 ct,
      mbed_des_cbc_init xorBackend heapAllocated 1 TEE_MODE_ENCRYPT sampleKey sampleKey.length
        sampleIv sampleIv.length = some (TEE_SUCCESS, h1) ∧
      mbed_des_cbc_update_pieces xorBackend h1 1 [sampleKey, sampleIv ++ sampleKey] =
        some (h2, ct) ∧
      ct.length = [sampleKey, sampleIv ++ sampleKey].flatten.length ∧
      ∀ (g : Heap) (cd : Ptr) (c1 : mbed_des_cbc_ctx) (cs : List (List Byte)),
        to_des_cbc_ctx g cd = some c1 → (∀ d ∈ cs, d.length % 8 = 0) → cs.flatten = ct →
        ∃ g1 g2,
          mbed_des_cbc_init xorBackend g cd TEE_MODE_DECRYPT sampleKey sampleKey.length
            sampleIv sampleIv.length = some (TEE_SUCCESS, g1) ∧
          mbed_des_cbc_update_pieces xorBackend g1 cd cs =
            some (g2, [sampleKey, sampleIv ++ sampleKey].flatten) :=
  encrypt_decrypt_round_trip xorBackend sampleKey sampleIv [sampleKey, sampleIv ++ sampleKey]
    heapAllocated 1 allocatedCtx (by decide) (by decide) (by decide) (by decide) (by decide)
    (fun b => xorBlock_cancel b _) (by decide)

/-- C6. Copy-state clones and keeps the two contexts independent: after
`mbed_des_cbc_copy_state(dst, src)` on two contexts bound to the DES-CBC
table, the chaining vector, direction and key schedule of `dst` are those of
`src`, the table reference of `dst` and the whole of `src` are unchanged, the
next `mbed_des_cbc_update` gives the same result and output on `dst` as on
`src`, and, the two being distinct objects, an update of one leaves the
storage of the other as it was. -/
theorem copy_state_clone_independent (B : DesBackend) (h : Heap) (dst src : Ptr)
    (cd cs : mbed_des_cbc_ctx)
    (hd : to_des_cbc_ctx h dst = some cd) (hs : to_des_cbc_ctx h src = some cs) :
    ∃ h1 cd1,
      mbed_des_cbc_copy_state h dst src = some h1 ∧
      to_des_cbc_ctx h1 dst = some cd1 ∧
      cd1.iv = cs.iv ∧ cd1.mbed_mode = cs.mbed_mode ∧ cd1.des_ctx = cs.des_ctx ∧
      cd1.ops = cd.ops ∧
      h1 src = h src ∧ to_des_cbc_ctx h1 src = some cs ∧
      ∀ (lb : Bool) (data : List Byte), data.length % 8 = 0 →
        ∃ hd2 hs2 out,
          mbed_des_cbc_update B h1 dst lb data data.length = some (TEE_SUCCESS, hd2, out) ∧
          mbed_des_cbc_update B h1 src lb data data.length = some (TEE_SUCCESS, hs2, out) ∧
          (dst ≠ src → hd2 src = h1 src ∧ hs2 dst = h1 dst) := by
  obtain ⟨hd0, hdx, hdops⟩ := to_des_cbc_ctx_some hd
  obtain ⟨hs0, hsx, hsops⟩ := to_des_cbc_ctx_some hs
  have hcopy : mbed_des_cbc_copy_state h dst src =
      some (h.write dst
        ⟨{ cd with iv := cs.iv, mbed_mode := cs.mbed_mode, des_ctx := cs.des_ctx }, true⟩) := by
    unfold mbed_des_cbc_copy_state
    rw [hs, hd]
  have hd1 := to_des_cbc_ctx_write_same h dst
    { cd with iv := cs.iv, mbed_mode := cs.mbed_mode, des_ctx := cs.des_ctx } hd0 hdops
  have hsrc : (h.write dst
      ⟨{ cd with iv := cs.iv, mbed_mode := cs.mbed_mode, des_ctx := cs.des_ctx }, true⟩) src =
      h src := by
    by_cases he : src = dst
    · subst he
      rw [Heap.write_same, hsx]
      have hcc : cd = cs := by
        have := hdx.symm.trans hsx
        simpa using this
      subst hcc
      rfl
    · exact Heap.write_other h dst src _ he
  have hs1 : to_des_cbc_ctx (h.write dst
      ⟨{ cd with iv := cs.iv, mbed_mode := cs.mbed_mode, des_ctx := cs.des_ctx }, true⟩) src =
      some cs := to_des_cbc_ctx_of hs0 (hsrc.trans hsx) hsops
  refine ⟨_, _, hcopy, hd1, rfl, rfl, rfl, rfl, hsrc, hs1, ?_⟩
  intro lb data hlen
  have hud := mbed_des_cbc_update_aligned B _ dst _ lb data hd1 hlen
  have hus := mbed_des_cbc_update_aligned B _ src _ lb data hs1 hlen
  have hrun : cbc_run B
      { cd with iv := cs.iv, mbed_mode := cs.mbed_mode, des_ctx := cs.des_ctx } data =
      cbc_run B cs data := rfl
  rw [hrun] at hud
  refine ⟨_, _, _, hud, hus, ?_⟩
  intro hne
  exact ⟨Heap.write_other _ dst src _ (fun e => hne e.symm), Heap.write_other _ src dst _ hne⟩

theorem copy_state_clone_independent_witness :
    ∃ h1 cd1,
      mbed_des_cbc_copy_state heapTwo 2 1 = some h1 ∧
      to_des_cbc_ctx h1 2 = some cd1 ∧
      cd1.iv = readyCtx.iv ∧ cd1.mbed_mode = readyCtx.mbed_mode ∧
      cd1.des_ctx = readyCtx.des_ctx ∧ cd1.ops = allocatedCtx.ops ∧
      h1 1 = heapTwo 1 ∧ to_des_cbc_ctx h1 1 = some readyCtx ∧
      ∀ (lb : Bool) (data : List Byte), data.length % 8 = 0 →
        ∃ hd2 hs2 out,
          mbed_des_cbc_update xorBackend h1 2 lb data data.length =
            some (TEE_SUCCESS, hd2, out) ∧
          mbed_des_cbc_update xorBackend h1 1 lb data data.length =
            some (TEE_SUCCESS, hs2, out) ∧
          (2 ≠ 1 → hd2 1 = h1 1 ∧ hs2 2 = h1 2) :=
  copy_state_clone_independent xorBackend heapTwo 2 1 allocatedCtx readyCtx
    (by decide) (by decide)

/-- C8, as the code has it: `mbed_des_cbc_update` makes no lifecycle check.
On a context fresh from `crypto_des_cbc_alloc_ctx`, and on a context after
`mbed_des_cbc_final`, every block-aligned input gets `TEE_SUCCESS` and as many
output bytes as input bytes: the CBC transform under the all-zero key
schedule, in the decrypt direction from the zero chaining vector for the
fresh context, in the retained direction from the retained chaining vector
after `final`. -/
theorem update_without_ready_state (B : DesBackend) (h : Heap) (p ctx : Ptr)
    (c : mbed_des_cbc_ctx) (lb : Bool) (data : List Byte)
    (hp : p ≠ 0) (hc : to_des_cbc_ctx h ctx = some c) (hlen : data.length % 8 = 0) :
    (∃ h1 out,
      mbed_des_cbc_update B (crypto_des_cbc_alloc_ctx h p).2.1 p lb data data.length =
        some (TEE_SUCCESS, h1, out) ∧
      out = (cbc_decrypt_blocks B zero_des_context (data.length / 8) zeroBlock data).2 ∧
      out.length = data.length) ∧
    (∃ hf h1 out,
      mbed_des_cbc_final h ctx = some hf ∧
      mbed_des_cbc_update B hf ctx lb data data.length = some (TEE_SUCCESS, h1, out) ∧
      out = (cbc_run B { c with des_ctx := zero_des_context } data).2 ∧
      out.length = data.length) := by
  constructor
  · have ha : to_des_cbc_ctx (crypto_des_cbc_alloc_ctx h p).2.1 p =
        some { zeroed_ctx with ops := OpsRef.mbed_des_cbc_ops } := by
      unfold crypto_des_cbc_alloc_ctx
      rw [if_neg hp]
      exact to_des_cbc_ctx_write_same h p _ hp rfl
    have hu := mbed_des_cbc_update_aligned B _ p _ lb data ha hlen
    have hdm : (MBEDTLS_DES_DECRYPT : Int) ≠ MBEDTLS_DES_ENCRYPT := by decide
    refine ⟨_, _, hu, ?_, cbc_run_length B _ data hlen⟩
    rw [cbc_run_decrypt B _ data hdm]
    rfl
  · obtain ⟨h0, _, hops⟩ := to_des_cbc_ctx_some hc
    have hfin : mbed_des_cbc_final h ctx =
        some (h.write ctx ⟨{ c with des_ctx := zero_des_context }, true⟩) := by
      unfold mbed_des_cbc_final
      rw [hc]
      rfl
    have hcf := to_des_cbc_ctx_write_same h ctx { c with des_ctx := zero_des_context } h0 hops
    exact ⟨_, _, _, hfin, mbed_des_cbc_update_aligned B _ ctx _ lb data hcf hlen, rfl,
      cbc_run_length B _ data hlen⟩

theorem update_without_ready_state_witness :
    (∃ h1 out,
      mbed_des_cbc_update xorBackend (crypto_des_cbc_alloc_ctx heapReady 2).2.1 2 false
        sampleKey sampleKey.length = some (TEE_SUCCESS, h1, out) ∧
      out = (cbc_decrypt_blocks xorBackend zero_des_context (sampleKey.length / 8) zeroBlock
        sampleKey).2 ∧
      out.length = sampleKey.length) ∧
    (∃ hf h1 out,
      mbed_des_cbc_final heapReady 1 = some hf ∧
      mbed_des_cbc_update xorBackend hf 1 false sampleKey sampleKey.length =
        some (TEE_SUCCESS, h1, out) ∧
      out = (cbc_run xorBackend { readyCtx with des_ctx := zero_des_context } sampleKey).2 ∧
      out.length = sampleKey.length) :=
  update_without_ready_state xorBackend heapReady 2 1 readyCtx false sampleKey
    (by decide) (by decide) (by decide)

/-- C8 fails as stated: on the context fresh from `crypto_des_cbc_alloc_ctx`
at address 1, and on the initialised context at address 1 after
`mbed_des_cbc_final`, an 8-byte input gets `TEE_SUCCESS` and 8 bytes of
output. -/
theorem update_succeeds_when_not_ready :
    (mbed_des_cbc_update xorBackend (crypto_des_cbc_alloc_ctx emptyHeap 1).2.1 1 false
        sampleKey 8).map (fun r => (r.1, r.2.2)) =
      some (TEE_SUCCESS, [1, 2, 3, 4, 5, 6, 7, 8]) ∧
    mbed_des_cbc_final heapReady 1 = some heapFinal ∧
    (mbed_des_cbc_update xorBackend heapFinal 1 false sampleKey 8).map
        (fun r => (r.1, r.2.2)) =
      some (TEE_SUCCESS, [17, 34, 51, 68, 85, 102, 119, 136]) := by
  refine ⟨by decide, rfl, by decide⟩

/-- C9, as the code has it: `mbed_des_cbc_free_ctx` releases the storage and
writes nothing to it, so the released storage holds the context, key schedule
included, exactly as it was at the call; the key schedule is zeroed by
`mbed_des_cbc_final` alone, and storage released after `final` holds the
all-zero key schedule. -/
theorem free_ctx_keeps_contents (h : Heap) (ctx : Ptr) (c : mbed_des_cbc_ctx)
    (hc : to_des_cbc_ctx h ctx = some c) :
    (∃ h1,
      mbed_des_cbc_free_ctx h ctx = some h1 ∧ h1 ctx = some ⟨c, false⟩ ∧
      ∀ q, q ≠ ctx → h1 q = h q) ∧
    (∃ hf h2 c2,
      mbed_des_cbc_final h ctx = some hf ∧
      mbed_des_cbc_free_ctx hf ctx = some h2 ∧ h2 ctx = some ⟨c2, false⟩ ∧
      c2.des_ctx = zero_des_context ∧ c2.iv = c.iv ∧ c2.mbed_mode = c.mbed_mode ∧
      c2.ops = c.ops) := by
  obtain ⟨h0, _, hops⟩ := to_des_cbc_ctx_some hc
  constructor
  · refine ⟨h.write ctx ⟨c, false⟩, ?_, Heap.write_same h ctx _,
      fun q hq => Heap.write_other h ctx q _ hq⟩
    unfold mbed_des_cbc_free_ctx
    rw [hc]
  · have hfin : mbed_des_cbc_final h ctx =
        some (h.write ctx ⟨{ c with des_ctx := zero_des_context }, true⟩) := by
      unfold mbed_des_cbc_final
      rw [hc]
      rfl
    have hcf := to_des_cbc_ctx_write_same h ctx { c with des_ctx := zero_des_context } h0 hops
    refine ⟨_, (h.write ctx ⟨{ c with des_ctx := zero_des_context }, true⟩).write ctx
        ⟨{ c with des_ctx := zero_des_context }, false⟩,
      { c with des_ctx := zero_des_context }, hfin, ?_, Heap.write_same _ ctx _,
      rfl, rfl, rfl, rfl⟩
    unfold mbed_des_cbc_free_ctx
    rw [hcf]

theorem free_ctx_keeps_contents_witness :
    (∃ h1,
      mbed_des_cbc_free_ctx heapReady 1 = some h1 ∧ h1 1 = some ⟨readyCtx, false⟩ ∧
      ∀ q, q ≠ 1 → h1 q = heapReady q) ∧
    (∃ hf h2 c2,
      mbed_des_cbc_final heapReady 1 = some hf ∧
      mbed_des_cbc_free_ctx hf 1 = some h2 ∧ h2 1 = some ⟨c2, false⟩ ∧
      c2.des_ctx = zero_des_context ∧ c2.iv = readyCtx.iv ∧
      c2.mbed_mode = readyCtx.mbed_mode ∧ c2.ops = readyCtx.ops) :=
  free_ctx_keeps_contents heapReady 1 readyCtx (by decide)

/-- C9 fails as stated: releasing the initialised context at address 1, on
which `mbed_des_cbc_final` was never called, leaves in the released storage
the key schedule that `mbed_des_cbc_init` installed, which is not the zero
one. -/
theorem free_ctx_leaves_key_schedule :
    to_des_cbc_ctx heapReady 1 = some readyCtx ∧
    (mbed_des_cbc_free_ctx heapReady 1).bind (fun g => g 1) = some ⟨readyCtx, false⟩ ∧
    readyCtx.des_ctx = (xorBackend.mbedtls_des_setkey_enc zero_des_context sampleKey).2 ∧
    readyCtx.des_ctx ≠ zero_des_context := by
  decide

/-- C10. Signature-verification status mapping: `convert_ltc_verify_status`
returns `TEE_SUCCESS` exactly for `CRYPT_OK` with status 1,
`TEE_ERROR_SIGNATURE_INVALID` exactly for `CRYPT_OK` with another status or
for `CRYPT_INVALID_PACKET`, and `TEE_ERROR_GENERIC` for every other library
result. -/
theorem convert_ltc_verify_status_mapping (ltc_res ltc_stat : Int) :
    (convert_ltc_verify_status ltc_res ltc_stat = TEE_SUCCESS ↔
      ltc_res = CRYPT_OK ∧ ltc_stat = 1) ∧
    (convert_ltc_verify_status ltc_res ltc_stat = TEE_ERROR_SIGNATURE_INVALID ↔
      (ltc_res = CRYPT_OK ∧ ltc_stat ≠ 1) ∨ ltc_res = CRYPT_INVALID_PACKET) ∧
    (convert_ltc_verify_status ltc_res ltc_stat = TEE_ERROR_GENERIC ↔
      ltc_res ≠ CRYPT_OK ∧ ltc_res ≠ CRYPT_INVALID_PACKET) := by
  unfold convert_ltc_verify_status
  by_cases h0 : ltc_res = CRYPT_OK
  · have h7 : ltc_res ≠ CRYPT_INVALID_PACKET := by rw [h0]; decide
    by_cases h1 : ltc_stat = 1
    · simp [h0, h1, TEE_SUCCESS, TEE_ERROR_SIGNATURE_INVALID, TEE_ERROR_GENERIC, CRYPT_OK,
        CRYPT_INVALID_PACKET]
    · simp [h0, h1, TEE_SUCCESS, TEE_ERROR_SIGNATURE_INVALID, TEE_ERROR_GENERIC, CRYPT_OK,
        CRYPT_INVALID_PACKET]
  · by_cases h7 : ltc_res = CRYPT_INVALID_PACKET
    · simp [h7, TEE_SUCCESS, TEE_ERROR_SIGNATURE_INVALID, TEE_ERROR_GENERIC, CRYPT_OK,
        CRYPT_INVALID_PACKET]
    · simp [h0, h7, TEE_SUCCESS, TEE_ERROR_SIGNATURE_INVALID, TEE_ERROR_GENERIC]
